/-
Verification of the comparable-property valuation engine of the
sundial-evaluation-api repository (src/main.py), against its design
specification.

Numbers are modelled exactly: Python floats become rationals (ℚ), except
where the source computes a transcendental function (math.cos, math.sqrt),
where we use ℝ.  Python dicts for sale records become a structure whose
optional fields model absent/None keys; Python truthiness (`if price:`)
is modelled explicitly (None and 0 are falsy).
-/
import Mathlib

unseal Rat.ofScientific Rat.mul Rat.inv Rat.add Rat.sub

namespace Sundial

/-! ## Configuration constants (src/main.py lines 48-54) -/

def INITIAL_SEARCH_RADIUS_MILES : ℚ := 3

def MAX_SEARCH_RADIUS_MILES : ℚ := 10

def SEARCH_RADIUS_INCREMENT : ℚ := 1

def MIN_COMPARABLE_PROPERTIES : ℕ := 3

def MIN_ACREAGE_RATIO : ℚ := 1/5

def MAX_ACREAGE_RATIO : ℚ := 5

/-! ## Data model

A `Sale` is the canonical comparable record built by `fetch_zillow_data`
(the `property_dict` of src/main.py lines 1872-1887).  Fields that the
engine's computations consume are kept; purely descriptive strings
(beds/baths/sqft/price_text/lot_size/date_sold/home_type/coordinates)
play no role in any claim and are omitted from the model. -/

structure Sale where
  address : String
  price : Option ℚ
  acreage : Option ℚ
  price_per_acre : Option ℚ
  zpid : Option ℕ
deriving DecidableEq

/-- A raw Zillow record as consumed by the per-property loop of
`fetch_zillow_data` (src/main.py lines 1858-1894). -/
structure RawRecord where
  price : Option ℚ
  lotAreaValue : Option ℚ
  lotAreaUnit : String
  zpid : Option ℕ
  streetAddress : String
  city : String
  state : String
  zipcode : String

/-- Python truthiness of an optional number: `None` and `0` are falsy. -/
def truthyQ : Option ℚ → Bool
  | none => false
  | some x => x ≠ 0

/-- Python truthiness of an optional integer id. -/
def truthyN : Option ℕ → Bool
  | none => false
  | some n => n ≠ 0

/-- Python's `str.lower()`, character by character (the lot-area units
compared against it are plain ASCII). -/
def strLower (s : String) : String := ⟨s.data.map Char.toLower⟩

/-- The sales normalizer: the body of the `for property_data in props`
loop of `fetch_zillow_data` (src/main.py lines 1858-1894).  Returns
`none` when the record is skipped (`if not lot_acres or not zpid:
continue`); otherwise builds the `property_dict`.  The sqft → acres
conversion divides by 43560 when the (lowercased) unit is "sqft". -/
def normalizeRecord (r : RawRecord) : Option Sale :=
  if ¬ truthyQ r.lotAreaValue ∨ ¬ truthyN r.zpid then none
  else
    let la := r.lotAreaValue.getD 0
    let lot_acres := if strLower r.lotAreaUnit = "sqft" then la / 43560 else la
    some
      { address := r.streetAddress ++ ", " ++ r.city ++ ", " ++ r.state ++ " " ++ r.zipcode
        price := if truthyQ r.price then r.price else none
        acreage := some lot_acres
        price_per_acre :=
          if truthyQ r.price ∧ 0 < lot_acres then some (r.price.getD 0 / lot_acres) else none
        zpid := r.zpid }

/-! ## Acreage filter (src/main.py lines 1969-1979) -/

/-- The retention predicate of `filter_properties_by_acreage`: the record
has a non-null acreage lying in the inclusive band. -/
def acreageBand (target_acreage : ℚ) (p : Sale) : Bool :=
  match p.acreage with
  | some a =>
      decide (target_acreage * MIN_ACREAGE_RATIO ≤ a ∧ a ≤ target_acreage * MAX_ACREAGE_RATIO)
  | none => false

def filter_properties_by_acreage (properties : List Sale) (target_acreage : ℚ) : List Sale :=
  properties.filter (acreageBand target_acreage)

/-! ## Outlier detector (src/main.py lines 1981-2008) -/

/-- `np.percentile(values, q)` with the default linear interpolation:
sort ascending, locate the fractional position `q/100 * (n-1)`, and
linearly interpolate between the two neighbouring order statistics. -/
def percentile (xs : List ℚ) (q : ℚ) : ℚ :=
  let sorted := List.insertionSort (· ≤ ·) xs
  let pos := q / 100 * ((xs.length : ℚ) - 1)
  let i := ⌊pos⌋₊
  let lo := sorted.getD i 0
  let hi := sorted.getD (i + 1) lo
  lo + (pos - (i : ℚ)) * (hi - lo)

/-- The "is within IQR bounds" test applied to each record that has a
non-null `price_per_acre` (records with a null value match neither
filter). -/
def inBounds (lower_bound upper_bound : ℚ) (p : Sale) : Bool :=
  match p.price_per_acre with
  | some v => decide (lower_bound ≤ v ∧ v ≤ upper_bound)
  | none => false

def outOfBounds (lower_bound upper_bound : ℚ) (p : Sale) : Bool :=
  match p.price_per_acre with
  | some v => decide (¬ (lower_bound ≤ v ∧ v ≤ upper_bound))
  | none => false

def detect_outliers_iqr (properties : List Sale) : List Sale × List Sale :=
  if properties.isEmpty then ([], [])
  else
    let values := properties.filterMap Sale.price_per_acre
    if values.length < 4 then (properties, [])
    else
      let q1 := percentile values 25
      let q3 := percentile values 75
      let iqr := q3 - q1
      let lower_bound := q1 - 3/2 * iqr
      let upper_bound := q3 + 3/2 * iqr
      (properties.filter (inBounds lower_bound upper_bound),
       properties.filter (outOfBounds lower_bound upper_bound))

/-- `q1 - 1.5 * iqr` as computed at src/main.py line 1996. -/
def iqrLowerBound (values : List ℚ) : ℚ :=
  percentile values 25 - 3/2 * (percentile values 75 - percentile values 25)

/-- `q3 + 1.5 * iqr` as computed at src/main.py line 1997. -/
def iqrUpperBound (values : List ℚ) : ℚ :=
  percentile values 75 + 3/2 * (percentile values 75 - percentile values 25)

/-! ## Valuation calculator (src/main.py lines 2010-2061) -/

/-- `statistics.median`: middle order statistic, or the mean of the two
middle ones for an even count. -/
def listMedian (xs : List ℚ) : ℚ :=
  let s := List.insertionSort (· ≤ ·) xs
  let n := s.length
  if n % 2 = 1 then s.getD (n / 2) 0
  else (s.getD (n / 2 - 1) 0 + s.getD (n / 2) 0) / 2

def listMin (xs : List ℚ) : ℚ := xs.foldl min (xs.headD 0)

def listMax (xs : List ℚ) : ℚ := xs.foldl max (xs.headD 0)

/-- `statistics.stdev` squared: sample variance with Bessel's correction
(denominator `n - 1`). -/
def sampleVariance (xs : List ℚ) : ℚ :=
  let m := xs.sum / (xs.length : ℚ)
  (xs.map (fun x => (x - m) ^ 2)).sum / ((xs.length : ℚ) - 1)

/-- The `price_per_acre_stats` dict. `std_dev` is the only field that
needs a square root, hence lives in ℝ. -/
structure PriceStats where
  min : ℚ
  max : ℚ
  avg : ℚ
  median : ℚ
  std_dev : ℝ

/-- The dict returned by `calculate_property_value`. -/
structure ValuationResult where
  estimated_value_avg : Option ℚ
  estimated_value_median : Option ℚ
  price_per_acre_stats : Option PriceStats
  comparable_count : ℕ

noncomputable def calculate_property_value
    (target_acreage : ℚ) (comparable_properties : List Sale) : ValuationResult :=
  if comparable_properties.isEmpty then
    { estimated_value_avg := none
      estimated_value_median := none
      price_per_acre_stats := none
      comparable_count := 0 }
  else
    let values := comparable_properties.filterMap Sale.price_per_acre
    if values.isEmpty then
      { estimated_value_avg := none
        estimated_value_median := none
        price_per_acre_stats := none
        comparable_count := comparable_properties.length }
    else
      let avg_price_per_acre := values.sum / (values.length : ℚ)
      let median_price_per_acre :=
        if values.length = 1 then values.headD 0 else listMedian values
      { estimated_value_avg := some (avg_price_per_acre * target_acreage)
        estimated_value_median := some (median_price_per_acre * target_acreage)
        price_per_acre_stats := some
          { min := listMin values
            max := listMax values
            avg := avg_price_per_acre
            median := median_price_per_acre
            std_dev :=
              if 1 < values.length then Real.sqrt ((sampleVariance values : ℚ) : ℝ) else 0 }
        comparable_count := comparable_properties.length }

/-! ## Deduplication by address (src/main.py lines 2078-2082)

`list({prop['address']: prop for prop in homes}.values())`: a Python
dict comprehension keyed by address.  Keys keep the position of their
first occurrence; the value stored under a key is overwritten by each
later occurrence, so the record kept for an address is the last one in
iteration order. -/

def upsert (acc : List Sale) (p : Sale) : List Sale :=
  if acc.any (fun q => q.address = p.address) then
    acc.map (fun q => if q.address = p.address then p else q)
  else acc ++ [p]

def dedupByAddress (homes : List Sale) : List Sale := homes.foldl upsert []

/-! ## Backfill stage (src/main.py lines 2097-2118)

When the filtered comparables are still below `MIN_COMPARABLE_PROPERTIES`,
price history is looked up for each potential (price-less) candidate and
successful candidates are appended — but the per-candidate loop breaks as
soon as the minimum is reached.  `priceLookup` abstracts
`fetch_price_history_parallel` (zpid ↦ optional price). -/

def backfillUpdate (p : Sale) (price : ℚ) : Sale :=
  { p with
    price := some price
    price_per_acre :=
      match p.acreage with
      | some a => if 0 < a then some (price / a) else none
      | none => none }

def backfill (priceLookup : ℕ → Option ℚ) (filtered_homes : List Sale) :
    List Sale → List Sale
  | [] => filtered_homes
  | p :: rest =>
    if MIN_COMPARABLE_PROPERTIES ≤ filtered_homes.length then filtered_homes
    else
      match p.zpid with
      | some z =>
        if z ≠ 0 then
          match priceLookup z with
          | some price =>
            if price ≠ 0 then
              backfill priceLookup (filtered_homes ++ [backfillUpdate p price]) rest
            else backfill priceLookup filtered_homes rest
          | none => backfill priceLookup filtered_homes rest
        else backfill priceLookup filtered_homes rest
      | none => backfill priceLookup filtered_homes rest

/-! ## Comparable search loop (src/main.py lines 2059-2129)

`fetch` abstracts one radius iteration of `fetch_zillow_data`: given the
current radius it yields (homes with price, homes without price); the
bounding-box computation feeding it is pure geometry and does not affect
the loop's control flow.  The Python `while` increments the radius by
`SEARCH_RADIUS_INCREMENT = 1` starting at `3`, so it runs at most 8
iterations (radii 3..10); the structural fuel of 9 is therefore never
exhausted and only the `radius ≤ MAX` guard decides exit. -/

def searchLoopAux (fetch : ℚ → List Sale × List Sale) (target_acreage : ℚ) :
    ℕ → ℚ → List Sale → List Sale → ℚ × List Sale × List Sale
  | 0, radius, all_homes, potential_homes => (radius, all_homes, potential_homes)
  | fuel + 1, radius, all_homes, potential_homes =>
    if radius ≤ MAX_SEARCH_RADIUS_MILES then
      if MIN_COMPARABLE_PROPERTIES ≤
          (filter_properties_by_acreage (dedupByAddress (all_homes ++ (fetch radius).1))
            target_acreage).length
      then (radius, dedupByAddress (all_homes ++ (fetch radius).1),
            dedupByAddress (potential_homes ++ (fetch radius).2))
      else searchLoopAux fetch target_acreage fuel (radius + SEARCH_RADIUS_INCREMENT)
            (dedupByAddress (all_homes ++ (fetch radius).1))
            (dedupByAddress (potential_homes ++ (fetch radius).2))
    else (radius, all_homes, potential_homes)

/-- `find_comparable_properties` (src/main.py lines 2059-2129), returning
(valid, outliers, final_radius, total_comparables_found). -/
def find_comparable_properties (fetch : ℚ → List Sale × List Sale)
    (priceLookup : ℕ → Option ℚ) (target_acreage : ℚ) :
    List Sale × List Sale × ℚ × ℕ :=
  let r := searchLoopAux fetch target_acreage 9 INITIAL_SEARCH_RADIUS_MILES [] []
  let search_radius := r.1
  let all_homes := r.2.1
  let potential_homes := r.2.2
  let final_radius :=
    if search_radius ≤ MAX_SEARCH_RADIUS_MILES then search_radius else MAX_SEARCH_RADIUS_MILES
  let filtered_homes := filter_properties_by_acreage all_homes target_acreage
  let potential_filtered := filter_properties_by_acreage potential_homes target_acreage
  let total_comparables_found := filtered_homes.length + potential_filtered.length
  let filtered2 :=
    if filtered_homes.length < MIN_COMPARABLE_PROPERTIES then
      backfill priceLookup filtered_homes potential_filtered
    else filtered_homes
  let vo := detect_outliers_iqr filtered2
  let vo2 := if filtered2.length < 4 then (filtered2, []) else vo
  (vo2.1, vo2.2, final_radius, total_comparables_found)

/-- The `all_homes` accumulator entering iteration `n` of the search
loop (which runs at radius `INITIAL + n * INCREMENT`), for a loop that
has not yet broken: each iteration extends the accumulator with the
priced records fetched at its radius and re-deduplicates by address
(src/main.py lines 2076-2078).  `accumulatedAllHomes fetch (n+1)` is
therefore the set whose filtered length the loop compares against
`MIN_COMPARABLE_PROPERTIES` at the end of iteration `n`. -/
def accumulatedAllHomes (fetch : ℚ → List Sale × List Sale) : ℕ → List Sale
  | 0 => []
  | n + 1 =>
    dedupByAddress (accumulatedAllHomes fetch n ++
      (fetch (INITIAL_SEARCH_RADIUS_MILES + (n : ℚ) * SEARCH_RADIUS_INCREMENT)).1)

/-! ## Geo math (src/main.py lines 48, 1784-1791) -/

noncomputable def MILES_TO_DEGREES : ℝ := 1 / 69

noncomputable def calculate_bounding_box (latitude longitude miles : ℝ) : ℝ × ℝ × ℝ × ℝ :=
  let offset := miles * MILES_TO_DEGREES
  let north := latitude + offset
  let south := latitude - offset
  let lng_offset := offset * Real.cos (latitude * Real.pi / 180)
  let east := longitude + lng_offset
  let west := longitude - lng_offset
  (north, south, east, west)

/-! ## Concrete records used by counterexamples and witnesses -/

/-- A raw record with a negative lot-area value: Python's `if not
lot_acres` only rejects `None` and `0`, so this record passes the guard. -/
def recNegLot : RawRecord :=
  { price := none, lotAreaValue := some (-1), lotAreaUnit := "acres"
    zpid := some 7, streetAddress := "9 Dry Gulch", city := "Yuma", state := "AZ"
    zipcode := "85364" }

/-- The sale the normalizer constructs from `recNegLot`. -/
def saleNegAcre : Sale :=
  { address := "9 Dry Gulch, Yuma, AZ 85364", price := none, acreage := some (-1)
    price_per_acre := none, zpid := some 7 }

/-- The spec's sqft-conversion scenario record (`lotAreaValue=21780,
lotAreaUnit="sqft"`). -/
def recSqft : RawRecord :=
  { price := some 10000, lotAreaValue := some 21780, lotAreaUnit := "sqft"
    zpid := some 5, streetAddress := "1 Oak Ln", city := "Tulsa", state := "OK"
    zipcode := "74101" }

/-- A comparable with price per acre 10. -/
def sComp1 : Sale := ⟨"11 A St, Tulsa, OK 74101", some 100, some 1, some 10, some 11⟩

def sComp2 : Sale := ⟨"12 B St, Tulsa, OK 74101", some 200, some 1, some 20, some 12⟩

def sComp3 : Sale := ⟨"13 C St, Tulsa, OK 74101", some 300, some 1, some 30, some 13⟩

/-- A comparable priced far outside the IQR bounds of the other three. -/
def sOutlier : Sale := ⟨"14 D St, Tulsa, OK 74101", some 1000, some 1, some 1000, some 14⟩

/-- A fetch that finds the same two in-band priced comparables at every
radius: the accumulated filtered count stays at 2, below the minimum of
3, so the loop must exhaust every radius. -/
def fetchTwoComps : ℚ → List Sale × List Sale := fun _ => ([sComp1, sComp2], [])

/-- A sale with price per acre 1000, for the median-of-one scenario. -/
def saleK : Sale := ⟨"5 Pine Rd, Kent, OH 44240", some 5000, some 5, some 1000, some 9⟩

/-- A potential sale: no price yet, in band for a one-acre target. -/
def salePot : Sale := ⟨"6 Elm Rd, Kent, OH 44240", none, some 1, none, some 21⟩

/-! ## C2: normalizer acreage invariant -/

/-- C2 (counterexample): the claim "any constructed Sale has acreage
strictly greater than 0" fails on the code: a raw record with
`lotAreaValue = -1` passes the `if not lot_acres` guard (only absent and
zero are falsy) and the normalizer constructs a sale whose acreage is
`-1 ≤ 0`. -/
theorem normalize_neg_acreage_counterexample :
    normalizeRecord recNegLot = some saleNegAcre ∧
    saleNegAcre.acreage = some (-1) ∧ (-1 : ℚ) ≤ 0 := by
  refine ⟨by decide, by decide, by norm_num⟩

/-- C2 (amended): records whose lot area is absent or zero are dropped,
and any constructed sale has a non-null, nonzero acreage, which is
strictly positive whenever the raw lot-area value is positive. -/
theorem normalize_acreage_invariant (r : RawRecord) :
    ((r.lotAreaValue = none ∨ r.lotAreaValue = some 0) → normalizeRecord r = none) ∧
    (∀ s, normalizeRecord r = some s →
      ∃ a, s.acreage = some a ∧ a ≠ 0 ∧
        (∀ la, r.lotAreaValue = some la → 0 < la → 0 < a)) := by
  constructor
  · rintro (h | h) <;> simp [normalizeRecord, h, truthyQ]
  · intro s hs
    unfold normalizeRecord at hs
    split at hs
    · simp at hs
    · rename_i hg
      push_neg at hg
      obtain ⟨hla, _⟩ := hg
      obtain ⟨la, hla', hlane⟩ : ∃ la, r.lotAreaValue = some la ∧ la ≠ 0 := by
        cases h : r.lotAreaValue with
        | none => rw [h] at hla; simp [truthyQ] at hla
        | some x =>
          rw [h] at hla
          refine ⟨x, rfl, ?_⟩
          simpa [truthyQ] using hla
      rw [hla'] at hs
      simp only [Option.some.injEq] at hs
      subst hs
      by_cases hu : strLower r.lotAreaUnit = "sqft"
      · refine ⟨la / 43560, by simp [hu], div_ne_zero hlane (by norm_num), ?_⟩
        intro la' hla'' hpos
        rw [hla'] at hla''
        simp only [Option.some.injEq] at hla''
        subst hla''
        positivity
      · refine ⟨la, by simp [hu], hlane, ?_⟩
        intro la' hla'' hpos
        rw [hla'] at hla''
        simp only [Option.some.injEq] at hla''
        subst hla''
        exact hpos

/-- C2 witness: the amended invariant evaluated on the sqft scenario
record, whose lot-area value 21780 is positive, yields the positive
acreage 1/2. -/
theorem normalize_acreage_invariant_witness :
    ∃ a, ((normalizeRecord recSqft).getD saleNegAcre).acreage = some a ∧
      a ≠ 0 ∧ 0 < a := by
  obtain ⟨a, ha, hne, hpos⟩ :=
    (normalize_acreage_invariant recSqft).2 ((normalizeRecord recSqft).getD saleNegAcre)
      (by decide)
  exact ⟨a, ha, hne, hpos 21780 (by decide) (by norm_num)⟩

/-! ## C8: sqft → acres conversion -/

/-- C8: any raw record whose lot-area unit is "sqft" has its lot area
divided by 43560 before the sale record is built. -/
theorem sqft_lot_area_conversion (r : RawRecord) (la : ℚ) (s : Sale)
    (hu : r.lotAreaUnit = "sqft") (hla : r.lotAreaValue = some la)
    (hn : normalizeRecord r = some s) :
    s.acreage = some (la / 43560) := by
  unfold normalizeRecord at hn
  split at hn
  · simp at hn
  · have hlow : strLower r.lotAreaUnit = "sqft" := by rw [hu]; decide
    rw [hla, hlow] at hn
    simp only [Option.some.injEq] at hn
    subst hn
    simp

/-- C8 witness: the scenario record with `lotAreaValue = 21780` and unit
"sqft" normalizes to acreage 1/2. -/
theorem sqft_lot_area_conversion_witness :
    ((normalizeRecord recSqft).getD saleNegAcre).acreage = some (21780 / 43560 : ℚ) ∧
    (21780 / 43560 : ℚ) = 1/2 := by
  refine ⟨sqft_lot_area_conversion recSqft 21780 _ rfl rfl ?_, by norm_num⟩
  decide

/-! ## C6: acreage band filter -/

/-- C6: the filter retains exactly the input sales whose (non-null)
acreage lies in the inclusive band `[T * 0.2, T * 5.0]`. -/
theorem acreage_filter_band (sales : List Sale) (T : ℚ) (s : Sale) :
    s ∈ filter_properties_by_acreage sales T ↔
      s ∈ sales ∧ ∃ a, s.acreage = some a ∧ T * (1/5) ≤ a ∧ a ≤ T * 5 := by
  unfold filter_properties_by_acreage
  rw [List.mem_filter]
  constructor
  · rintro ⟨hmem, hband⟩
    refine ⟨hmem, ?_⟩
    unfold acreageBand at hband
    cases ha : s.acreage with
    | none => rw [ha] at hband; simp at hband
    | some a =>
      rw [ha] at hband
      simp only [decide_eq_true_eq] at hband
      exact ⟨a, rfl, by simpa [ MIN_ACREAGE_RATIO] using hband.1,
        by simpa [ MAX_ACREAGE_RATIO] using hband.2⟩
  · rintro ⟨hmem, a, ha, h1, h2⟩
    refine ⟨hmem, ?_⟩
    unfold acreageBand
    rw [ha]
    simp only [decide_eq_true_eq]
    exact ⟨by simpa [ MIN_ACREAGE_RATIO] using h1, by simpa [ MAX_ACREAGE_RATIO] using h2⟩

/-- C6 witness: a one-acre sale is retained for a one-acre target
(band [0.2, 5]). -/
theorem acreage_filter_band_witness :
    saleNegAcre ∉ filter_properties_by_acreage [saleNegAcre] 1 ∧
    ((normalizeRecord recSqft).getD saleNegAcre) ∈
      filter_properties_by_acreage [(normalizeRecord recSqft).getD saleNegAcre] 1 := by
  constructor
  · intro h
    obtain ⟨-, a, ha, h1, -⟩ := (acreage_filter_band [saleNegAcre] 1 saleNegAcre).mp h
    have : a = -1 := by
      have := ha.symm.trans (show saleNegAcre.acreage = some (-1) by decide)
      simpa using this
    subst this
    norm_num at h1
  · exact (acreage_filter_band _ 1 _).mpr ⟨by decide, 1/2, by decide, by norm_num, by norm_num⟩

/-! ## C5: valuation calculator null policy -/

/-- C5: the calculator is total; on an empty list it returns count 0 and
all-null estimates/stats, and on a non-empty list with no non-null
price-per-acre it returns count `len(list)` and all-null
estimates/stats. -/
theorem calculate_value_null_policy (T : ℚ) :
    calculate_property_value T [] =
      { estimated_value_avg := none, estimated_value_median := none
        price_per_acre_stats := none, comparable_count := 0 } ∧
    ∀ sales : List Sale, sales ≠ [] → (∀ s ∈ sales, s.price_per_acre = none) →
      calculate_property_value T sales =
        { estimated_value_avg := none, estimated_value_median := none
          price_per_acre_stats := none, comparable_count := sales.length } := by
  refine ⟨rfl, ?_⟩
  intro sales hne hppa
  have hv : sales.filterMap Sale.price_per_acre = [] := by
    rw [List.filterMap_eq_nil_iff]
    intro s hs
    simp [hppa s hs]
  unfold calculate_property_value
  rw [if_neg (by simpa [List.isEmpty_iff] using hne)]
  simp only [hv]
  rfl

/-- C5 witness: the calculator evaluated at the empty list and at a
singleton potential sale (null price per acre). -/
theorem calculate_value_null_policy_witness :
    calculate_property_value 7 [] =
      { estimated_value_avg := none, estimated_value_median := none
        price_per_acre_stats := none, comparable_count := 0 } ∧
    calculate_property_value 7 [salePot] =
      { estimated_value_avg := none, estimated_value_median := none
        price_per_acre_stats := none, comparable_count := 1 } := by
  refine ⟨(calculate_value_null_policy 7).1, ?_⟩
  have h := (calculate_value_null_policy 7).2 [salePot] (by simp) ?_
  · simpa using h
  · intro s hs
    rw [List.mem_singleton] at hs
    subst hs
    rfl

/-! ## C7: single-sale statistics and std_dev convention -/

/-- Sample variance of two or more values is nonnegative. -/
theorem sampleVariance_nonneg (xs : List ℚ) (h : 2 ≤ xs.length) :
    0 ≤ sampleVariance xs := by
  unfold sampleVariance
  apply div_nonneg
  · apply List.sum_nonneg
    intro x hx
    obtain ⟨y, _, rfl⟩ := List.mem_map.mp hx
    positivity
  · have h2 : (2 : ℚ) ≤ (xs.length : ℚ) := by exact_mod_cast h
    linarith

/-- C7: on a single sale with price per acre v, average and median both
equal v, the estimates equal `v * T`, and std_dev is 0; in general
std_dev is 0 for one value and the sample standard deviation
(square root of the Bessel-corrected variance) for more than one. -/
theorem single_sale_stats :
    (∀ (T v : ℚ) (s : Sale), s.price_per_acre = some v →
      calculate_property_value T [s] =
        { estimated_value_avg := some (v * T), estimated_value_median := some (v * T)
          price_per_acre_stats := some
            { min := v, max := v, avg := v, median := v, std_dev := 0 }
          comparable_count := 1 }) ∧
    (∀ (T : ℚ) (sales : List Sale) (st : PriceStats),
      (calculate_property_value T sales).price_per_acre_stats = some st →
        (((sales.filterMap Sale.price_per_acre).length = 1 → st.std_dev = 0) ∧
         (1 < (sales.filterMap Sale.price_per_acre).length →
           st.std_dev =
             Real.sqrt ((sampleVariance (sales.filterMap Sale.price_per_acre) : ℚ) : ℝ) ∧
           st.std_dev ^ 2 =
             ((sampleVariance (sales.filterMap Sale.price_per_acre) : ℚ) : ℝ) ∧
           0 ≤ st.std_dev))) := by
  constructor
  · intro T v s h
    unfold calculate_property_value
    simp [h, listMin, listMax]
  · intro T sales st hst
    unfold calculate_property_value at hst
    split at hst
    · simp at hst
    · by_cases hv : (sales.filterMap Sale.price_per_acre).isEmpty
      · rw [if_pos hv] at hst
        simp at hst
      · rw [if_neg hv] at hst
        simp only [Option.some.injEq] at hst
        subst hst
        constructor
        · intro h1
          simp [h1]
        · intro h2
          have hnn := sampleVariance_nonneg (sales.filterMap Sale.price_per_acre) (by omega)
          refine ⟨by simp [if_pos h2], ?_, by simp only [if_pos h2]; exact Real.sqrt_nonneg _⟩
          simp only [if_pos h2]
          rw [Real.sq_sqrt (by exact_mod_cast hnn)]

/-- C7 witness: one sale with price per acre 1000 and target acreage 2
yields estimates 2000 and std_dev 0. -/
theorem single_sale_stats_witness :
    calculate_property_value 2 [saleK] =
      { estimated_value_avg := some (1000 * 2), estimated_value_median := some (1000 * 2)
        price_per_acre_stats := some
          { min := 1000, max := 1000, avg := 1000, median := 1000, std_dev := 0 }
        comparable_count := 1 } ∧
    (1000 * 2 : ℚ) = 2000 :=
  ⟨single_sale_stats.1 2 1000 saleK rfl, by norm_num⟩

/-! ## C3: IQR outlier partition -/

/-- C3: with at least 4 non-null price-per-acre values the detector
splits the input into exactly the in-bounds and out-of-bounds sales
(null-valued sales in neither); with fewer than 4 it returns
`(all input sales, [])`. -/
theorem iqr_outlier_partition (sales : List Sale) :
    ((sales.filterMap Sale.price_per_acre).length < 4 →
      detect_outliers_iqr sales = (sales, [])) ∧
    (4 ≤ (sales.filterMap Sale.price_per_acre).length →
      ∀ s,
        (s ∈ (detect_outliers_iqr sales).1 ↔ s ∈ sales ∧
          ∃ v, s.price_per_acre = some v ∧
            iqrLowerBound (sales.filterMap Sale.price_per_acre) ≤ v ∧
            v ≤ iqrUpperBound (sales.filterMap Sale.price_per_acre)) ∧
        (s ∈ (detect_outliers_iqr sales).2 ↔ s ∈ sales ∧
          ∃ v, s.price_per_acre = some v ∧
            ¬(iqrLowerBound (sales.filterMap Sale.price_per_acre) ≤ v ∧
              v ≤ iqrUpperBound (sales.filterMap Sale.price_per_acre)))) := by
  constructor
  · intro h
    unfold detect_outliers_iqr
    cases sales with
    | nil => simp
    | cons a t =>
      rw [if_neg (by simp)]
      rw [if_pos (by simpa using h)]
  · intro h s
    have hne : sales ≠ [] := by
      intro e
      subst e
      simp at h
    unfold detect_outliers_iqr
    rw [if_neg (by simpa [List.isEmpty_iff] using hne), if_neg (by omega)]
    simp only [iqrLowerBound, iqrUpperBound]
    constructor
    · rw [List.mem_filter]
      unfold inBounds
      cases hv : s.price_per_acre with
      | none => simp
      | some v =>
        simp only [decide_eq_true_eq, Option.some.injEq]
        constructor
        · rintro ⟨hm, hb⟩
          exact ⟨hm, v, rfl, hb⟩
        · rintro ⟨hm, v1, hv1, hb⟩
          cases hv1
          exact ⟨hm, hb⟩
    · rw [List.mem_filter]
      unfold outOfBounds
      cases hv : s.price_per_acre with
      | none => simp
      | some v =>
        simp only [decide_eq_true_eq, Option.some.injEq]
        constructor
        · rintro ⟨hm, hb⟩
          exact ⟨hm, v, rfl, hb⟩
        · rintro ⟨hm, v1, hv1, hb⟩
          cases hv1
          exact ⟨hm, hb⟩

/-- C3 witness: on four sales with values {10, 20, 30, 1000} the
detector keeps the first three and classifies the 1000-per-acre sale as
an outlier. -/
theorem iqr_outlier_partition_witness :
    sOutlier ∈ (detect_outliers_iqr [sComp1, sComp2, sComp3, sOutlier]).2 ∧
    sComp1 ∈ (detect_outliers_iqr [sComp1, sComp2, sComp3, sOutlier]).1 := by
  constructor
  · exact (((iqr_outlier_partition _).2 (by decide)) sOutlier).2.mpr
      ⟨by decide, 1000, rfl, by decide⟩
  · exact (((iqr_outlier_partition _).2 (by decide)) sComp1).1.mpr
      ⟨by decide, 10, rfl, by decide⟩

/-! ## C9: bounding box formula -/

/-- C9: the bounding box is the total pure function
`(lat + r/69, lat - r/69, lon ± (r/69)·cos(lat·π/180))`. -/
theorem bounding_box_formula (lat lon r : ℝ) :
    calculate_bounding_box lat lon r =
      (lat + r / 69, lat - r / 69,
       lon + r / 69 * Real.cos (lat * Real.pi / 180),
       lon - r / 69 * Real.cos (lat * Real.pi / 180)) := by
  unfold calculate_bounding_box MILES_TO_DEGREES
  have h : r * (1 / 69) = r / 69 := by ring
  rw [h]

/-! ## C10: backfill never grows past the minimum -/

/-- C10: the backfill loop leaves an already-at-minimum list untouched
and never grows the comparable list beyond
`max (initial length) MIN_COMPARABLE_PROPERTIES`: candidates are only
appended while the running length is below the minimum. -/
theorem backfill_capped (priceLookup : ℕ → Option ℚ) (filtered pots : List Sale) :
    (MIN_COMPARABLE_PROPERTIES ≤ filtered.length →
      backfill priceLookup filtered pots = filtered) ∧
    (backfill priceLookup filtered pots).length ≤
      max filtered.length MIN_COMPARABLE_PROPERTIES := by
  induction pots generalizing filtered with
  | nil => exact ⟨fun _ => rfl, le_max_left _ _⟩
  | cons p rest ih =>
    unfold backfill
    by_cases hmin : MIN_COMPARABLE_PROPERTIES ≤ filtered.length
    · rw [if_pos hmin]
      exact ⟨fun _ => rfl, le_max_left _ _⟩
    · rw [if_neg hmin]
      have hlen : filtered.length < MIN_COMPARABLE_PROPERTIES := by omega
      refine ⟨fun h => absurd h hmin, ?_⟩
      cases hz : p.zpid with
      | none => exact (ih filtered).2
      | some z =>
        dsimp only
        by_cases hz0 : z ≠ 0
        · rw [if_pos hz0]
          cases hp : priceLookup z with
          | none => exact (ih filtered).2
          | some price =>
            dsimp only
            by_cases hp0 : price ≠ 0
            · rw [if_pos hp0]
              have := (ih (filtered ++ [backfillUpdate p price])).2
              have hl : (filtered ++ [backfillUpdate p price]).length =
                  filtered.length + 1 := by simp
              rw [hl] at this
              unfold MIN_COMPARABLE_PROPERTIES at *
              omega
            · rw [if_neg hp0]
              exact (ih filtered).2
        · rw [if_neg hz0]
          exact (ih filtered).2

/-- C10 witness: with a price source that always answers, two candidates
from a three-element potential list are appended to a two-element
comparable list, stopping exactly at the minimum of three. -/
theorem backfill_capped_witness :
    backfill (fun _ => some 100) [sComp1, sComp2, sComp3] [salePot] =
      [sComp1, sComp2, sComp3] ∧
    (backfill (fun _ => some 100) [sComp1] [salePot, saleK, sOutlier]).length ≤
      max (List.length [sComp1]) MIN_COMPARABLE_PROPERTIES := by
  exact ⟨(backfill_capped (fun _ => some 100) [sComp1, sComp2, sComp3] [salePot]).1
      (by decide),
    (backfill_capped (fun _ => some 100) [sComp1] [salePot, saleK, sOutlier]).2⟩

/-! ## C4: radius bounds and exhaustion -/

/-- Every record produced by the dict-upsert step is either an old
accumulated record or the newly inserted one. -/
theorem mem_upsert {acc : List Sale} {p q : Sale} (h : q ∈ upsert acc p) :
    q ∈ acc ∨ q = p := by
  unfold upsert at h
  split at h
  · obtain ⟨x, hx, hfx⟩ := List.mem_map.mp h
    by_cases hxa : x.address = p.address
    · right
      rw [if_pos hxa] at hfx
      exact hfx.symm
    · left
      rw [if_neg hxa] at hfx
      rwa [← hfx]
  · rcases List.mem_append.mp h with h1 | h1
    · exact Or.inl h1
    · exact Or.inr (by simpa using h1)

theorem mem_foldl_upsert (l : List Sale) :
    ∀ (acc : List Sale) (q : Sale), q ∈ l.foldl upsert acc → q ∈ acc ∨ q ∈ l := by
  induction l with
  | nil => exact fun acc q h => Or.inl h
  | cons p t ih =>
    intro acc q h
    rcases ih (upsert acc p) q h with h1 | h1
    · rcases mem_upsert h1 with h2 | h2
      · exact Or.inl h2
      · exact Or.inr (by simp [h2])
    · exact Or.inr (List.mem_cons_of_mem _ h1)

/-- Deduplication only keeps records that were in its input. -/
theorem mem_dedupByAddress {l : List Sale} {q : Sale} (h : q ∈ dedupByAddress l) :
    q ∈ l := by
  rcases mem_foldl_upsert l [] q h with h1 | h1
  · simp at h1
  · exact h1

/-- The loop can only increase the radius. -/
theorem searchLoopAux_le_radius (fetch : ℚ → List Sale × List Sale) (T : ℚ) :
    ∀ (fuel : ℕ) (radius : ℚ) (all_homes potential_homes : List Sale),
      radius ≤ (searchLoopAux fetch T fuel radius all_homes potential_homes).1 := by
  intro fuel
  induction fuel with
  | zero => exact fun radius all pot => le_refl _
  | succ n ih =>
    intro radius all pot
    unfold searchLoopAux
    split
    · split
      · exact le_refl _
      · calc radius ≤ radius + SEARCH_RADIUS_INCREMENT := by
              unfold SEARCH_RADIUS_INCREMENT
              linarith
          _ ≤ _ := ih _ _ _
    · exact le_refl _

/-- If the accumulated filtered comparable count stays below the
minimum after every one of the loop's iterations (radii 3..10, i.e.
iteration indices `m < 8`), the loop never breaks, so it runs past the
maximum radius. -/
theorem searchLoopAux_exhausts (fetch : ℚ → List Sale × List Sale) (T : ℚ)
    (H : ∀ m : ℕ, m < 8 →
      (filter_properties_by_acreage (accumulatedAllHomes fetch (m + 1)) T).length <
        MIN_COMPARABLE_PROPERTIES) :
    ∀ (fuel n : ℕ) (pot : List Sale),
      MAX_SEARCH_RADIUS_MILES <
        INITIAL_SEARCH_RADIUS_MILES + (n : ℚ) * SEARCH_RADIUS_INCREMENT + (fuel : ℚ) →
      MAX_SEARCH_RADIUS_MILES <
        (searchLoopAux fetch T fuel
          (INITIAL_SEARCH_RADIUS_MILES + (n : ℚ) * SEARCH_RADIUS_INCREMENT)
          (accumulatedAllHomes fetch n) pot).1 := by
  intro fuel
  induction fuel with
  | zero =>
    intro n pot hlt
    simpa using hlt
  | succ k ih =>
    intro n pot hlt
    unfold searchLoopAux
    split
    case isFalse hr =>
      push_neg at hr
      simpa using hr
    case isTrue hr =>
      have hn : n < 8 := by
        by_contra hge
        push_neg at hge
        have h8 : (8 : ℚ) ≤ (n : ℚ) := by exact_mod_cast hge
        unfold INITIAL_SEARCH_RADIUS_MILES SEARCH_RADIUS_INCREMENT
          MAX_SEARCH_RADIUS_MILES at hr
        linarith
      have hacc : dedupByAddress (accumulatedAllHomes fetch n ++
          (fetch (INITIAL_SEARCH_RADIUS_MILES + (n : ℚ) * SEARCH_RADIUS_INCREMENT)).1) =
          accumulatedAllHomes fetch (n + 1) := rfl
      rw [if_neg (by rw [hacc]; exact not_le.mpr (H n hn))]
      have hrad : INITIAL_SEARCH_RADIUS_MILES + (n : ℚ) * SEARCH_RADIUS_INCREMENT +
          SEARCH_RADIUS_INCREMENT =
          INITIAL_SEARCH_RADIUS_MILES + ((n + 1 : ℕ) : ℚ) * SEARCH_RADIUS_INCREMENT := by
        push_cast
        ring
      rw [hacc, hrad]
      apply ih (n + 1)
      push_cast at hlt ⊢
      unfold SEARCH_RADIUS_INCREMENT at hlt ⊢
      linarith

/-- C4: the loop always terminates with a final radius between the
initial (3) and maximum (10) search radius, and when the minimum
comparable count is never reached — the filtered accumulated set stays
below `MIN_COMPARABLE_PROPERTIES` after every iteration the loop can
run (radii 3..10) — the final radius equals the maximum. -/
theorem search_radius_bounds (fetch : ℚ → List Sale × List Sale)
    (priceLookup : ℕ → Option ℚ) (T : ℚ) :
    (INITIAL_SEARCH_RADIUS_MILES ≤ (find_comparable_properties fetch priceLookup T).2.2.1 ∧
      (find_comparable_properties fetch priceLookup T).2.2.1 ≤ MAX_SEARCH_RADIUS_MILES) ∧
    ((∀ m : ℕ, m < 8 →
        (filter_properties_by_acreage (accumulatedAllHomes fetch (m + 1)) T).length <
          MIN_COMPARABLE_PROPERTIES) →
      (find_comparable_properties fetch priceLookup T).2.2.1 = MAX_SEARCH_RADIUS_MILES) := by
  have hproj : (find_comparable_properties fetch priceLookup T).2.2.1 =
      if (searchLoopAux fetch T 9 INITIAL_SEARCH_RADIUS_MILES [] []).1 ≤
          MAX_SEARCH_RADIUS_MILES
      then (searchLoopAux fetch T 9 INITIAL_SEARCH_RADIUS_MILES [] []).1
      else MAX_SEARCH_RADIUS_MILES := rfl
  rw [hproj]
  constructor
  · constructor
    · split
      · exact searchLoopAux_le_radius fetch T 9 _ [] []
      · unfold INITIAL_SEARCH_RADIUS_MILES MAX_SEARCH_RADIUS_MILES
        norm_num
    · split
      · assumption
      · exact le_refl _
  · intro H
    have h10 := searchLoopAux_exhausts fetch T H 9 0 []
      (by unfold INITIAL_SEARCH_RADIUS_MILES SEARCH_RADIUS_INCREMENT
            MAX_SEARCH_RADIUS_MILES
          norm_num)
    have h10' : MAX_SEARCH_RADIUS_MILES <
        (searchLoopAux fetch T 9 INITIAL_SEARCH_RADIUS_MILES [] []).1 := by
      have he : INITIAL_SEARCH_RADIUS_MILES + ((0 : ℕ) : ℚ) * SEARCH_RADIUS_INCREMENT =
          INITIAL_SEARCH_RADIUS_MILES := by
        push_cast
        ring
      rw [he] at h10
      exact h10
    rw [if_neg (not_le.mpr h10')]

/-- C4 witness: a fetch that finds the same two in-band comparables at
every radius never reaches the minimum of three, so the loop exhausts
and the reported final radius is the maximum (10 miles); the bounds hold
there too. -/
theorem search_radius_bounds_witness :
    ((find_comparable_properties fetchTwoComps (fun _ => none) 1).2.2.1 =
      MAX_SEARCH_RADIUS_MILES) ∧
    INITIAL_SEARCH_RADIUS_MILES ≤
      (find_comparable_properties fetchTwoComps (fun _ => none) 1).2.2.1 := by
  refine ⟨(search_radius_bounds fetchTwoComps (fun _ => none) 1).2 ?_,
    (search_radius_bounds fetchTwoComps (fun _ => none) 1).1.1⟩
  decide

/-! ## C1: deduplication policy

A Python dict comprehension keyed by address keeps, for each address,
the value of its *last* occurrence (keys keep first-occurrence order).
The claim "first-seen wins" is therefore false; the lemmas below
establish the actual policy. -/

/-- A sale fetched first for an address. -/
def saleFirst : Sale := ⟨"1 Main St, Yuma, AZ 85364", some 100, some 1, some 100, some 31⟩

/-- A different sale, same address, fetched after `saleFirst`. -/
def saleLast : Sale := ⟨"1 Main St, Yuma, AZ 85364", some 200, some 1, some 200, some 32⟩

/-- A fetch collaborator returning the two duplicate-address sales at the
initial radius and nothing afterwards. -/
def fetchDup : ℚ → List Sale × List Sale :=
  fun r => if r = 3 then ([saleFirst, saleLast], []) else ([], [])

/-- C1 (counterexample): the accumulated set keeps the *later* record for
a duplicated address, not the first-seen one — here the loop's result
contains `saleLast` and has dropped `saleFirst`. -/
theorem dedup_first_seen_counterexample :
    saleFirst.address = saleLast.address ∧ saleFirst ≠ saleLast ∧
    dedupByAddress [saleFirst, saleLast] = [saleLast] ∧
    (find_comparable_properties fetchDup (fun _ => none) 1).1 = [saleLast] := by
  refine ⟨by decide, by decide, by decide, by decide⟩

/-- The upsert step rewrites an existing address in place (keeping the
address list unchanged) or appends a new address at the end. -/
theorem upsert_map_address (acc : List Sale) (p : Sale) :
    (upsert acc p).map Sale.address =
      if acc.any (fun q => q.address = p.address) then acc.map Sale.address
      else acc.map Sale.address ++ [p.address] := by
  unfold upsert
  split
  case isTrue h =>
    rw [List.map_map]
    apply List.map_congr_left
    intro x _
    by_cases hx : x.address = p.address
    · simp [hx]
    · simp [hx]
  case isFalse h =>
    simp

theorem nodup_upsert (acc : List Sale) (p : Sale)
    (h : (acc.map Sale.address).Nodup) :
    ((upsert acc p).map Sale.address).Nodup := by
  rw [upsert_map_address]
  split
  · exact h
  case isFalse hany =>
    rw [List.nodup_append]
    refine ⟨h, List.nodup_singleton _, ?_⟩
    intro a ha hb
    rw [List.mem_singleton] at hb
    subst hb
    obtain ⟨q, hq, hqa⟩ := List.mem_map.mp ha
    exact hany (List.any_eq_true.mpr ⟨q, hq, by simp [hqa]⟩)

theorem nodup_foldl_upsert (l : List Sale) :
    ∀ acc : List Sale, (acc.map Sale.address).Nodup →
      ((l.foldl upsert acc).map Sale.address).Nodup := by
  induction l with
  | nil => exact fun acc h => h
  | cons p t ih => exact fun acc h => ih _ (nodup_upsert acc p h)

/-- The deduplicated list mentions each address at most once. -/
theorem nodup_dedupByAddress (l : List Sale) :
    ((dedupByAddress l).map Sale.address).Nodup :=
  nodup_foldl_upsert l [] (by simp)

/-- In a list with pairwise-distinct addresses, filtering by the address
of a member yields exactly that member. -/
theorem filter_addr_of_nodup :
    ∀ acc : List Sale, (acc.map Sale.address).Nodup →
      ∀ s ∈ acc, acc.filter (fun q => q.address == s.address) = [s] := by
  intro acc
  induction acc with
  | nil =>
    intro _ s hs
    simp at hs
  | cons a t ih =>
    intro h s hs
    rw [List.map_cons, List.nodup_cons] at h
    obtain ⟨hna, hnt⟩ := h
    rcases List.mem_cons.mp hs with rfl | hst
    · rw [List.filter_cons, if_pos (by simp)]
      have ht : t.filter (fun q => q.address == s.address) = [] := by
        rw [List.filter_eq_nil_iff]
        intro q hq
        simp only [beq_iff_eq]
        intro he
        exact hna (by rw [← he]; exact List.mem_map_of_mem Sale.address hq)
      rw [ht]
    · have hne : a.address ≠ s.address := by
        intro he
        exact hna (by rw [he]; exact List.mem_map_of_mem Sale.address hst)
      rw [List.filter_cons, if_neg (by simp [hne])]
      exact ih hnt s hst

/-- Replacing the records of one address does not change the filter for
any other address. -/
theorem filter_replace_ne (acc : List Sale) (p : Sale) (a : String)
    (hne : p.address ≠ a) :
    (acc.map (fun q => if q.address = p.address then p else q)).filter
        (fun q => q.address == a) =
      acc.filter (fun q => q.address == a) := by
  rw [List.filter_map]
  have hcong : acc.filter ((fun q => q.address == a) ∘
      (fun q => if q.address = p.address then p else q)) =
      acc.filter (fun q => q.address == a) := by
    apply List.filter_congr
    intro x _
    by_cases h : x.address = p.address
    · have h1 : (p.address == a) = false := by simpa using hne
      have h2 : (x.address == a) = false := by
        rw [h]
        simpa using hne
      simp only [Function.comp_apply, if_pos h, h1, h2]
    · simp [Function.comp_apply, if_neg h]
  rw [hcong]
  have hid : ∀ x ∈ acc.filter (fun q => q.address == a),
      (if x.address = p.address then p else x) = x := by
    intro x hx
    have hxa := (List.mem_filter.mp hx).2
    simp only [beq_iff_eq] at hxa
    rw [if_neg (by rw [hxa]; exact fun he => hne he.symm)]
  rw [List.map_congr_left hid]
  simp

/-- Filtering the replaced list at the inserted record's own address
yields copies of the inserted record. -/
theorem filter_replace_self (acc : List Sale) (p : Sale) :
    (acc.map (fun q => if q.address = p.address then p else q)).filter
        (fun q => q.address == p.address) =
      (acc.filter (fun q => q.address == p.address)).map (fun _ => p) := by
  rw [List.filter_map]
  have hcong : acc.filter ((fun q => q.address == p.address) ∘
      (fun q => if q.address = p.address then p else q)) =
      acc.filter (fun q => q.address == p.address) := by
    apply List.filter_congr
    intro x _
    by_cases h : x.address = p.address
    · simp [Function.comp_apply, h]
    · simp [Function.comp_apply, h]
  rw [hcong]
  apply List.map_congr_left
  intro x hx
  have hxa := (List.mem_filter.mp hx).2
  simp only [beq_iff_eq] at hxa
  rw [if_pos hxa]

/-- One upsert step has the same last-filtered element per address as
plain appending. -/
theorem upsert_filter_getLast (acc : List Sale) (p : Sale) (a : String) :
    ((upsert acc p).filter (fun q => q.address == a)).getLast? =
      ((acc ++ [p]).filter (fun q => q.address == a)).getLast? := by
  unfold upsert
  split
  case isTrue hany =>
    by_cases hpa : p.address = a
    · subst hpa
      rw [filter_replace_self, List.getLast?_map, List.filter_append]
      have hp : [p].filter (fun q => q.address == p.address) = [p] := by simp
      rw [hp, List.getLast?_concat]
      have hne : acc.filter (fun q => q.address == p.address) ≠ [] := by
        obtain ⟨x, hx, hxa⟩ := List.any_eq_true.mp hany
        simp only [decide_eq_true_eq] at hxa
        intro hnil
        rw [List.filter_eq_nil_iff] at hnil
        exact hnil x hx (by simp [hxa])
      obtain ⟨y, hy⟩ := Option.isSome_iff_exists.mp (List.getLast?_isSome.mpr hne)
      rw [hy]
      rfl
    · rw [filter_replace_ne acc p a hpa, List.filter_append]
      have hp : [p].filter (fun q => q.address == a) = [] := by simp [hpa]
      rw [hp, List.append_nil]
  case isFalse h => rfl

/-- Processing a list through repeated upserts keeps, for each address,
the last record of that address in `acc ++ l`. -/
theorem foldl_upsert_lastWins :
    ∀ (l acc : List Sale), (acc.map Sale.address).Nodup →
      ∀ s ∈ l.foldl upsert acc,
        ((acc ++ l).filter (fun q => q.address == s.address)).getLast? = some s := by
  intro l
  induction l with
  | nil =>
    intro acc h s hs
    rw [List.append_nil, filter_addr_of_nodup acc h s hs]
    rfl
  | cons p t ih =>
    intro acc h s hs
    have hlast := ih (upsert acc p) (nodup_upsert acc p h) s hs
    rw [show acc ++ p :: t = (acc ++ [p]) ++ t by simp]
    rw [List.filter_append] at hlast ⊢
    rcases ht : t.filter (fun q => q.address == s.address) with _ | ⟨c, cs⟩
    · rw [ht, List.append_nil] at hlast ⊢
      rw [← upsert_filter_getLast]
      exact hlast
    · rw [ht] at hlast ⊢
      rw [List.getLast?_append_cons] at hlast ⊢
      exact hlast

/-- C1 (amended): accumulation across radius iterations deduplicates by
address with *last-seen* (not first-seen) wins: the deduplicated list
contains each address at most once, each kept record is the last record
with its address in fetch order, and the loop's accumulated set keeps
addresses pairwise distinct. -/
theorem dedup_last_seen_wins :
    (∀ l : List Sale, ((dedupByAddress l).map Sale.address).Nodup) ∧
    (∀ (l : List Sale) (s : Sale), s ∈ dedupByAddress l →
      (l.filter (fun q => q.address == s.address)).getLast? = some s) ∧
    (∀ (fetch : ℚ → List Sale × List Sale) (T : ℚ) (fuel : ℕ) (radius : ℚ)
        (all_homes potential_homes : List Sale),
      (all_homes.map Sale.address).Nodup →
      (((searchLoopAux fetch T fuel radius all_homes potential_homes).2.1).map
        Sale.address).Nodup) := by
  refine ⟨nodup_dedupByAddress, ?_, ?_⟩
  · intro l s hs
    have := foldl_upsert_lastWins l [] (by simp) s hs
    simpa using this
  · intro fetch T fuel
    induction fuel with
    | zero => exact fun radius all pot h => h
    | succ n ih =>
      intro radius all pot h
      unfold searchLoopAux
      split
      · split
        · exact nodup_dedupByAddress _
        · exact ih _ _ _ (nodup_dedupByAddress _)
      · exact h

/-- C1 witness: in the two-record duplicate list, the record kept by
deduplication is the last occurrence of its address. -/
theorem dedup_last_seen_wins_witness :
    ([saleFirst, saleLast].filter
      (fun q => q.address == saleLast.address)).getLast? = some saleLast :=
  dedup_last_seen_wins.2.1 [saleFirst, saleLast] saleLast (by decide)

end Sundial
